import Mathlib

/-!
Verification of the baseline-extraction post-processing pipeline of
`segmentation/network.py` (functions `pad`, `unpad`, `extract_baselines` and
its local helpers `Cc_with_type`, `calculate_distance_matrix`,
`normalize_connected_components`).

The Python code is translated into executable Lean definitions:

* pixel coordinates are `(row, column)` pairs of integers, exactly as the
  `(cc[0], cc[1])` index arrays returned by `np.where`;
* all real-valued arithmetic of the distance computation is modelled over `ℚ`.
  The Python code computes the tolerance values `10/2 = 5.0`,
  `10*2/3 = 6.666…` and the threshold `1/5 * length = 10.0` in binary floating
  point; every comparison the code performs compares such a value with an
  integer (an integer column gap or an integer absolute row offset), and for
  these comparisons the exact rational value and the double value decide
  identically, so the `ℚ` model is behaviourally faithful;
* `np.mean` followed by `int(np.floor(mean + 0.5))` is modelled as the exact
  rational mean followed by `Int.floor`; a sum of machine integers divided by
  a small count is again decided identically in doubles and in `ℚ`;
* fallible library calls are modelled with `Except`: `sklearn`'s
  `DBSCAN(...).fit` validates its input and raises `ValueError` on a matrix
  with zero samples, and `zip` applied to non-iterable numpy scalars (line 394
  of the source) raises `TypeError`.
-/

/-- A pixel coordinate `(row, column)`, as produced by `np.where`. -/
abbrev Pixel := Int × Int

/-- The semantic type tag attached to a connected component
(`'baseline'` or `'baseline_border'` in the source). -/
inductive CcType where
  | baseline : CcType
  | baseline_border : CcType
deriving DecidableEq, Inhabited

/-- Descriptor of one connected component, mirroring the Python class
`Cc_with_type`: the pixel set `cc`, the two extremal pixels `cc_left` and
`cc_right`, and the semantic type tag. -/
structure Cc_with_type where
  cc : List Pixel
  cc_left : Pixel
  cc_right : Pixel
  type : CcType
deriving DecidableEq

instance : Inhabited Cc_with_type :=
  ⟨⟨[], (0, 0), (0, 0), CcType.baseline⟩⟩

/-- Python's `min` over a list of integers (the source only applies it to
non-empty pixel index arrays; the value on `[]` is irrelevant and fixed to 0). -/
def pyMin (l : List Int) : Int :=
  match l with
  | [] => 0
  | h :: t => t.foldl min h

/-- Python's `max` over a list of integers. -/
def pyMax (l : List Int) : Int :=
  match l with
  | [] => 0
  | h :: t => t.foldl max h

/-- Constructor of `Cc_with_type` (source lines 311-320): `cc_left` is the
first pixel (in the row-major order of the `np.where` arrays) whose column is
the minimal column, `cc_right` the first pixel whose column is the maximal
column. -/
def mkCc (pixels : List Pixel) (t : CcType) : Cc_with_type :=
  { cc := pixels
    cc_left := (pixels.find? (fun p => p.2 == pyMin (pixels.map Prod.snd))).getD (0, 0)
    cc_right := (pixels.find? (fun p => p.2 == pyMax (pixels.map Prod.snd))).getD (0, 0)
    type := t }

/-- Vertical tolerance band of `calculate_distance_matrix`
(source lines 350-354 and 360-364, duplicated verbatim in the two branches):
base tolerance 10, shrunk to `10/2` for gaps below `length/5` and to `10*2/3`
for gaps below `length`. -/
def v_tolerance (length d : ℚ) : ℚ :=
  if d < 1 / 5 * length then 10 / 2
  else if d < length then 10 * 2 / 3
  else 10

/-- Raw pairwise distance of `calculate_distance_matrix` before the type
factor (source lines 339-370).  `left(x,y)` is `x.cc_left[1] > y.cc_right[1]`,
`right(x,y)` is `x.cc_right[1] < y.cc_left[1]`; if neither holds the sentinel
99999 is returned. -/
def rawDistance (length : ℚ) (x y : Cc_with_type) : ℚ :=
  if y.cc_right.2 < x.cc_left.2 then
    let d : ℚ := ((x.cc_left.2 - y.cc_right.2 : Int) : ℚ)
    let v := v_tolerance length d
    if ((|x.cc_left.1 - y.cc_right.1| : Int) : ℚ) < v then d
    else d + ((|x.cc_left.1 - y.cc_right.1| : Int) : ℚ) * 5
  else if x.cc_right.2 < y.cc_left.2 then
    let d : ℚ := ((y.cc_left.2 - x.cc_right.2 : Int) : ℚ)
    let v := v_tolerance length d
    if ((|x.cc_left.1 - y.cc_right.1| : Int) : ℚ) < v then d
    else if ((|x.cc_right.1 - y.cc_left.1| : Int) : ℚ) < v then d
    else d + ((|y.cc_left.1 - x.cc_right.1| : Int) : ℚ) * 5
  else 99999

/-- The `same_type` factor (source line 340): 1 for equal type tags,
100 otherwise. -/
def sameTypeFactor (x y : Cc_with_type) : ℚ :=
  if x.type = y.type then 1 else 100

/-- Entry `(i, j)` of the matrix built by `calculate_distance_matrix`
(source lines 331-373).  The Python loop writes 0 when `x is y`; since the
pipeline's descriptor list consists of pairwise distinct objects, object
identity coincides with index equality (the arena-and-index reading given in
the specification's design notes). -/
def calculate_distance_matrix (length : ℚ) (ccs : List Cc_with_type) (i j : Nat) : ℚ :=
  if i = j then 0
  else
    rawDistance length (ccs.getD i default) (ccs.getD j default) *
      sameTypeFactor (ccs.getD i default) (ccs.getD j default)

/-- First concrete descriptor used to exhibit the asymmetry of the matrix:
component spanning columns 20-30, both extremes on row 0. -/
def ccSymA : Cc_with_type :=
  ⟨[((0 : Int), (20 : Int)), (0, 30)], (0, 20), (0, 30), CcType.baseline⟩

/-- Second concrete descriptor for the asymmetry: component spanning columns
0-5, left extreme on row 0, right extreme on row 7. -/
def ccSymB : Cc_with_type :=
  ⟨[((0 : Int), (0 : Int)), (7, 5)], (0, 0), (7, 5), CcType.baseline⟩

/-- C1 counterexample: the dissimilarity matrix of the two same-type
descriptors `ccSymA`, `ccSymB` is not symmetric.  For the ordered pair
`(ccSymA, ccSymB)` the left-of branch fires its penalty (offset 7 is not
below the tolerance `10*2/3`), giving `15 + 7*5 = 50`; for the swapped pair
the right-of branch additionally requires the second offset `|0 - 0| = 0` to
fail the tolerance test, which it does not, so no penalty is added and the
entry is 15. -/
theorem c1_counterexample :
    calculate_distance_matrix 50 [ccSymA, ccSymB] 0 1 ≠
      calculate_distance_matrix 50 [ccSymA, ccSymB] 1 0 := by
  norm_num [calculate_distance_matrix, rawDistance, v_tolerance, sameTypeFactor,
    ccSymA, ccSymB]

/-- C1 (amended): for every list of component descriptors every diagonal entry
of the dissimilarity matrix is zero; the matrix need not be symmetric. -/
theorem c1_diagonal_zero (length : ℚ) (ccs : List Cc_with_type) (i : Nat) :
    calculate_distance_matrix length ccs i i = 0 := by
  simp [calculate_distance_matrix]

/-- Baseline descriptor overlapping `ccOvB` in columns (span 0-5). -/
def ccOvA : Cc_with_type :=
  ⟨[((0 : Int), (0 : Int)), (0, 5)], (0, 0), (0, 5), CcType.baseline⟩

/-- Border descriptor overlapping `ccOvA` in columns (span 0-5). -/
def ccOvB : Cc_with_type :=
  ⟨[((1 : Int), (0 : Int)), (1, 5)], (1, 0), (1, 5), CcType.baseline_border⟩

/-- C2 counterexample: for the two distinct overlapping descriptors `ccOvA`
(baseline) and `ccOvB` (border) the matrix entry is not the sentinel 99999:
the code multiplies the sentinel by the type factor 100, storing 9999900. -/
theorem c2_counterexample :
    calculate_distance_matrix 50 [ccOvA, ccOvB] 0 1 ≠ 99999 := by
  norm_num [calculate_distance_matrix, rawDistance, v_tolerance, sameTypeFactor,
    ccOvA, ccOvB]
  decide

/-- C2 (amended): for distinct indices `i ≠ j` whose descriptors have
overlapping horizontal spans (neither left-of nor right-of holds), the raw
distance is the sentinel 99999 regardless of type, and the stored matrix
entry is the sentinel multiplied by the type factor: 99999 for equal type
tags and 9999900 otherwise. -/
theorem c2_amended (ccs : List Cc_with_type) (i j : Nat) (hij : i ≠ j)
    (hnl : ¬ (ccs.getD j default).cc_right.2 < (ccs.getD i default).cc_left.2)
    (hnr : ¬ (ccs.getD i default).cc_right.2 < (ccs.getD j default).cc_left.2) :
    rawDistance 50 (ccs.getD i default) (ccs.getD j default) = 99999 ∧
      calculate_distance_matrix 50 ccs i j =
        (if (ccs.getD i default).type = (ccs.getD j default).type
          then 99999 else 9999900) := by
  have hraw : rawDistance 50 (ccs.getD i default) (ccs.getD j default) = 99999 := by
    rw [rawDistance, if_neg hnl, if_neg hnr]
  refine ⟨hraw, ?_⟩
  rw [calculate_distance_matrix, if_neg hij, hraw, sameTypeFactor]
  split <;> norm_num

/-- C2 witness: instantiating the amended statement at `[ccOvA, ccOvB]` and
indices `(0, 1)`; the two type tags differ, so the entry is 9999900. -/
theorem c2_witness :
    ((0 : Nat) ≠ 1 ∧
        ¬ (([ccOvA, ccOvB].getD 1 default).cc_right.2 <
            ([ccOvA, ccOvB].getD 0 default).cc_left.2) ∧
        ¬ (([ccOvA, ccOvB].getD 0 default).cc_right.2 <
            ([ccOvA, ccOvB].getD 1 default).cc_left.2)) ∧
      rawDistance 50 ([ccOvA, ccOvB].getD 0 default) ([ccOvA, ccOvB].getD 1 default) = 99999 ∧
        calculate_distance_matrix 50 [ccOvA, ccOvB] 0 1 =
          (if ([ccOvA, ccOvB].getD 0 default).type = ([ccOvA, ccOvB].getD 1 default).type
            then 99999 else 9999900) :=
  ⟨⟨by decide, by decide, by decide⟩,
    c2_amended [ccOvA, ccOvB] 0 1 (by decide) (by decide) (by decide)⟩

/-- C4: characterisation of both directional branches of
`calculate_distance_matrix` for well-formed descriptors (left extreme column
not beyond right extreme column).  In the right-of case the raw distance is
the gap `y.cc_left[1] - x.cc_right[1]` and the penalty
`5 * |y.cc_left[0] - x.cc_right[0]|` is added exactly when BOTH vertical
offsets `|x.cc_left[0] - y.cc_right[0]|` and `|x.cc_right[0] - y.cc_left[0]|`
fail to be below the tolerance; in the left-of case the single offset
`|x.cc_left[0] - y.cc_right[0]|` failing to be below the tolerance triggers
the penalty. -/
theorem c4_right_penalty_needs_both_offsets (x y : Cc_with_type)
    (hwx : x.cc_left.2 ≤ x.cc_right.2) (hwy : y.cc_left.2 ≤ y.cc_right.2) :
    (x.cc_right.2 < y.cc_left.2 →
      rawDistance 50 x y =
        ((y.cc_left.2 - x.cc_right.2 : Int) : ℚ) +
          (if v_tolerance 50 ((y.cc_left.2 - x.cc_right.2 : Int) : ℚ) ≤
                ((|x.cc_left.1 - y.cc_right.1| : Int) : ℚ) ∧
              v_tolerance 50 ((y.cc_left.2 - x.cc_right.2 : Int) : ℚ) ≤
                ((|x.cc_right.1 - y.cc_left.1| : Int) : ℚ)
            then ((|y.cc_left.1 - x.cc_right.1| : Int) : ℚ) * 5 else 0)) ∧
    (y.cc_right.2 < x.cc_left.2 →
      rawDistance 50 x y =
        ((x.cc_left.2 - y.cc_right.2 : Int) : ℚ) +
          (if v_tolerance 50 ((x.cc_left.2 - y.cc_right.2 : Int) : ℚ) ≤
                ((|x.cc_left.1 - y.cc_right.1| : Int) : ℚ)
            then ((|x.cc_left.1 - y.cc_right.1| : Int) : ℚ) * 5 else 0)) := by
  constructor
  · intro hr
    have hnl : ¬ y.cc_right.2 < x.cc_left.2 := by omega
    rw [rawDistance, if_neg hnl, if_pos hr]
    simp only
    rcases lt_or_le ((|x.cc_left.1 - y.cc_right.1| : Int) : ℚ)
        (v_tolerance 50 ((y.cc_left.2 - x.cc_right.2 : Int) : ℚ)) with hA | hA
    · rw [if_pos hA, if_neg (fun h => absurd h.1 (not_le.mpr hA))]
      ring
    · rw [if_neg (not_lt.mpr hA)]
      rcases lt_or_le ((|x.cc_right.1 - y.cc_left.1| : Int) : ℚ)
          (v_tolerance 50 ((y.cc_left.2 - x.cc_right.2 : Int) : ℚ)) with hB | hB
      · rw [if_pos hB, if_neg (fun h => absurd h.2 (not_le.mpr hB))]
        ring
      · rw [if_neg (not_lt.mpr hB), if_pos ⟨hA, hB⟩]
  · intro hl
    rw [rawDistance, if_pos hl]
    simp only
    rcases lt_or_le ((|x.cc_left.1 - y.cc_right.1| : Int) : ℚ)
        (v_tolerance 50 ((x.cc_left.2 - y.cc_right.2 : Int) : ℚ)) with hA | hA
    · rw [if_pos hA, if_neg (not_le.mpr hA)]
      ring
    · rw [if_neg (not_lt.mpr hA), if_pos hA]

/-- Concrete descriptor right-of `ccRgtY`: spans columns 0-5. -/
def ccRgtX : Cc_with_type :=
  ⟨[((0 : Int), (0 : Int)), (0, 5)], (0, 0), (0, 5), CcType.baseline⟩

/-- Concrete descriptor with `ccRgtX` right-of it: spans columns 20-30. -/
def ccRgtY : Cc_with_type :=
  ⟨[((0 : Int), (20 : Int)), (0, 30)], (0, 20), (0, 30), CcType.baseline⟩

/-- C4 witness: the right-of characterisation applied to the concrete pair
`(ccRgtX, ccRgtY)` with `ccRgtX.cc_right.2 = 5 < 20 = ccRgtY.cc_left.2`. -/
theorem c4_witness :
    (ccRgtX.cc_left.2 ≤ ccRgtX.cc_right.2 ∧ ccRgtY.cc_left.2 ≤ ccRgtY.cc_right.2 ∧
        ccRgtX.cc_right.2 < ccRgtY.cc_left.2) ∧
      rawDistance 50 ccRgtX ccRgtY =
        ((ccRgtY.cc_left.2 - ccRgtX.cc_right.2 : Int) : ℚ) +
          (if v_tolerance 50 ((ccRgtY.cc_left.2 - ccRgtX.cc_right.2 : Int) : ℚ) ≤
                ((|ccRgtX.cc_left.1 - ccRgtY.cc_right.1| : Int) : ℚ) ∧
              v_tolerance 50 ((ccRgtY.cc_left.2 - ccRgtX.cc_right.2 : Int) : ℚ) ≤
                ((|ccRgtX.cc_right.1 - ccRgtY.cc_left.1| : Int) : ℚ)
            then ((|ccRgtY.cc_left.1 - ccRgtX.cc_right.1| : Int) : ℚ) * 5 else 0) :=
  ⟨⟨by decide, by decide, by decide⟩,
    (c4_right_penalty_needs_both_offsets ccRgtX ccRgtY (by decide) (by decide)).1 (by decide)⟩

/-- Boundary descriptor for C5: left extreme at `(5, 5)`, so the gap to
`ccBndY` is 5 and the vertical offset is exactly 5, the tolerance value. -/
def ccBndX : Cc_with_type :=
  ⟨[((5 : Int), (5 : Int)), (5, 9)], (5, 5), (5, 9), CcType.baseline⟩

/-- Boundary descriptor for C5: a single-pixel-extreme descriptor at `(0, 0)`. -/
def ccBndY : Cc_with_type :=
  ⟨[((0 : Int), (0 : Int))], (0, 0), (0, 0), CcType.baseline⟩

/-- C5 counterexample: for the pair `(ccBndX, ccBndY)` (same type, `ccBndX`
left-of `ccBndY`, gap 5 below `length/5`), the vertical offset 5 does NOT
exceed the tolerance 5, so the claim predicts distance `g = 5`; the code
tests `not offset < tolerance`, fires the penalty at equality, and produces
`5 + 5*5 = 30 ≠ 5`. -/
theorem c5_counterexample :
    ccBndY.cc_right.2 < ccBndX.cc_left.2 ∧
      ((|ccBndX.cc_left.1 - ccBndY.cc_right.1| : Int) : ℚ) ≤
        v_tolerance 50 ((ccBndX.cc_left.2 - ccBndY.cc_right.2 : Int) : ℚ) ∧
      rawDistance 50 ccBndX ccBndY ≠ ((ccBndX.cc_left.2 - ccBndY.cc_right.2 : Int) : ℚ) := by
  refine ⟨by decide, ?_, ?_⟩
  · norm_num [ccBndX, ccBndY, v_tolerance]
  · norm_num [ccBndX, ccBndY, rawDistance, v_tolerance]

/-- C5 (amended): left-of case of `calculate_distance_matrix` with the
boundary convention of the code.  For `x` left-of `y` with gap `g`:
the tolerance is 5 for `g < 10`, `20/3` for `10 ≤ g < 50` and 10 otherwise;
the raw distance equals `g` when the vertical offset is strictly below the
tolerance and `g + 5 * offset` when the offset is greater than or equal to
the tolerance (at offset exactly equal to the tolerance the penalty IS
applied); in particular two same-type descriptors with `g < 10` and offset
strictly below 5 are at matrix distance exactly `g`. -/
theorem c5_left_case_distance (x y : Cc_with_type)
    (hl : y.cc_right.2 < x.cc_left.2) :
    (((x.cc_left.2 - y.cc_right.2 : Int) : ℚ) < 10 →
        v_tolerance 50 ((x.cc_left.2 - y.cc_right.2 : Int) : ℚ) = 5) ∧
    ((10 : ℚ) ≤ ((x.cc_left.2 - y.cc_right.2 : Int) : ℚ) →
        ((x.cc_left.2 - y.cc_right.2 : Int) : ℚ) < 50 →
        v_tolerance 50 ((x.cc_left.2 - y.cc_right.2 : Int) : ℚ) = 20 / 3) ∧
    ((50 : ℚ) ≤ ((x.cc_left.2 - y.cc_right.2 : Int) : ℚ) →
        v_tolerance 50 ((x.cc_left.2 - y.cc_right.2 : Int) : ℚ) = 10) ∧
    (((|x.cc_left.1 - y.cc_right.1| : Int) : ℚ) <
          v_tolerance 50 ((x.cc_left.2 - y.cc_right.2 : Int) : ℚ) →
        rawDistance 50 x y = ((x.cc_left.2 - y.cc_right.2 : Int) : ℚ)) ∧
    (v_tolerance 50 ((x.cc_left.2 - y.cc_right.2 : Int) : ℚ) ≤
          ((|x.cc_left.1 - y.cc_right.1| : Int) : ℚ) →
        rawDistance 50 x y =
          ((x.cc_left.2 - y.cc_right.2 : Int) : ℚ) +
            5 * ((|x.cc_left.1 - y.cc_right.1| : Int) : ℚ)) ∧
    (x.type = y.type → ((x.cc_left.2 - y.cc_right.2 : Int) : ℚ) < 10 →
        ((|x.cc_left.1 - y.cc_right.1| : Int) : ℚ) < 5 →
        rawDistance 50 x y * sameTypeFactor x y =
          ((x.cc_left.2 - y.cc_right.2 : Int) : ℚ)) := by
  have h15 : (1 : ℚ) / 5 * 50 = 10 := by norm_num
  have t1 : ((x.cc_left.2 - y.cc_right.2 : Int) : ℚ) < 10 →
      v_tolerance 50 ((x.cc_left.2 - y.cc_right.2 : Int) : ℚ) = 5 := by
    intro h
    rw [v_tolerance, h15, if_pos h]
    norm_num
  have r1 : ((|x.cc_left.1 - y.cc_right.1| : Int) : ℚ) <
      v_tolerance 50 ((x.cc_left.2 - y.cc_right.2 : Int) : ℚ) →
      rawDistance 50 x y = ((x.cc_left.2 - y.cc_right.2 : Int) : ℚ) := by
    intro h
    rw [rawDistance, if_pos hl]
    simp only
    rw [if_pos h]
  refine ⟨t1, ?_, ?_, r1, ?_, ?_⟩
  · intro h1 h2
    rw [v_tolerance, h15, if_neg (not_lt.mpr h1), if_pos h2]
    norm_num
  · intro h
    rw [v_tolerance, h15, if_neg (not_lt.mpr (by linarith)), if_neg (not_lt.mpr h)]
  · intro h
    rw [rawDistance, if_pos hl]
    simp only
    rw [if_neg (not_lt.mpr h)]
    ring
  · intro ht hg ho
    rw [sameTypeFactor, if_pos ht, mul_one]
    exact r1 (by rw [t1 hg]; exact ho)

/-- Concrete same-type descriptor left-of `ccGapY` with gap 5 and vertical
offset 2. -/
def ccGapX : Cc_with_type :=
  ⟨[((0 : Int), (5 : Int)), (0, 9)], (0, 5), (0, 9), CcType.baseline⟩

/-- Concrete target of `ccGapX`: right extreme `(2, 0)`. -/
def ccGapY : Cc_with_type :=
  ⟨[((2 : Int), (0 : Int))], (2, 0), (2, 0), CcType.baseline⟩

/-- C5 witness: the amended left-of statement applied to `(ccGapX, ccGapY)`
(same type, gap `g = 5 < 10`, offset `2 < 5`): the matrix distance is `g`. -/
theorem c5_witness :
    (ccGapY.cc_right.2 < ccGapX.cc_left.2 ∧ ccGapX.type = ccGapY.type ∧
        ((ccGapX.cc_left.2 - ccGapY.cc_right.2 : Int) : ℚ) < 10 ∧
        ((|ccGapX.cc_left.1 - ccGapY.cc_right.1| : Int) : ℚ) < 5) ∧
      rawDistance 50 ccGapX ccGapY * sameTypeFactor ccGapX ccGapY =
        ((ccGapX.cc_left.2 - ccGapY.cc_right.2 : Int) : ℚ) :=
  ⟨⟨by decide, by decide, by norm_num [ccGapX, ccGapY], by norm_num [ccGapX, ccGapY]⟩,
    (c5_left_case_distance ccGapX ccGapY (by decide)).2.2.2.2.2 (by decide)
      (by norm_num [ccGapX, ccGapY]) (by norm_num [ccGapX, ccGapY])⟩

/-- Auxiliary: a left fold with `min` is bounded by its initial value. -/
theorem foldl_min_le_init (l : List Int) : ∀ a : Int, l.foldl min a ≤ a := by
  induction l with
  | nil => intro a; simp
  | cons h t ih =>
    intro a
    calc t.foldl min (min a h) ≤ min a h := ih (min a h)
    _ ≤ a := min_le_left a h

/-- Auxiliary: a left fold with `min` is bounded by every list element. -/
theorem foldl_min_le_mem (l : List Int) : ∀ a : Int, ∀ x ∈ l, l.foldl min a ≤ x := by
  induction l with
  | nil => intro a x hx; cases hx
  | cons h t ih =>
    intro a x hx
    rcases List.mem_cons.mp hx with rfl | hx
    · calc t.foldl min (min a x) ≤ min a x := foldl_min_le_init t (min a x)
      _ ≤ x := min_le_right a x
    · exact ih (min a h) x hx

/-- Auxiliary: a left fold with `min` returns the initial value or an element. -/
theorem foldl_min_mem (l : List Int) : ∀ a : Int, l.foldl min a = a ∨ l.foldl min a ∈ l := by
  induction l with
  | nil => intro a; exact Or.inl rfl
  | cons h t ih =>
    intro a
    rw [List.foldl_cons]
    rcases ih (min a h) with heq | hmem
    · rcases min_choice a h with hc | hc
      · rw [heq, hc]; exact Or.inl rfl
      · rw [heq, hc]; exact Or.inr (List.mem_cons_self h t)
    · exact Or.inr (List.mem_cons_of_mem h hmem)

/-- The Python `min` of a list bounds every element from below. -/
theorem pyMin_le (l : List Int) (x : Int) (hx : x ∈ l) : pyMin l ≤ x := by
  cases l with
  | nil => cases hx
  | cons h t =>
    rcases List.mem_cons.mp hx with rfl | hx
    · exact foldl_min_le_init t x
    · exact foldl_min_le_mem t h x hx

/-- The Python `min` of a non-empty list is one of its elements. -/
theorem pyMin_mem (l : List Int) (hne : l ≠ []) : pyMin l ∈ l := by
  cases l with
  | nil => exact absurd rfl hne
  | cons h t =>
    rcases foldl_min_mem t h with heq | hmem
    · rw [pyMin, heq]; exact List.mem_cons_self h t
    · exact List.mem_cons_of_mem h hmem

/-- Auxiliary: a left fold with `max` is bounded below by its initial value. -/
theorem foldl_max_ge_init (l : List Int) : ∀ a : Int, a ≤ l.foldl max a := by
  induction l with
  | nil => intro a; simp
  | cons h t ih =>
    intro a
    calc a ≤ max a h := le_max_left a h
    _ ≤ t.foldl max (max a h) := ih (max a h)

/-- Auxiliary: a left fold with `max` bounds every list element. -/
theorem foldl_max_ge_mem (l : List Int) : ∀ a : Int, ∀ x ∈ l, x ≤ l.foldl max a := by
  induction l with
  | nil => intro a x hx; cases hx
  | cons h t ih =>
    intro a x hx
    rcases List.mem_cons.mp hx with rfl | hx
    · calc x ≤ max a x := le_max_right a x
      _ ≤ t.foldl max (max a x) := foldl_max_ge_init t (max a x)
    · exact ih (max a h) x hx

/-- Auxiliary: a left fold with `max` returns the initial value or an element. -/
theorem foldl_max_mem (l : List Int) : ∀ a : Int, l.foldl max a = a ∨ l.foldl max a ∈ l := by
  induction l with
  | nil => intro a; exact Or.inl rfl
  | cons h t ih =>
    intro a
    rw [List.foldl_cons]
    rcases ih (max a h) with heq | hmem
    · rcases max_choice a h with hc | hc
      · rw [heq, hc]; exact Or.inl rfl
      · rw [heq, hc]; exact Or.inr (List.mem_cons_self h t)
    · exact Or.inr (List.mem_cons_of_mem h hmem)

/-- The Python `max` of a list bounds every element from above. -/
theorem le_pyMax (l : List Int) (x : Int) (hx : x ∈ l) : x ≤ pyMax l := by
  cases l with
  | nil => cases hx
  | cons h t =>
    rcases List.mem_cons.mp hx with rfl | hx
    · exact foldl_max_ge_init t x
    · exact foldl_max_ge_mem t h x hx

/-- The Python `max` of a non-empty list is one of its elements. -/
theorem pyMax_mem (l : List Int) (hne : l ≠ []) : pyMax l ∈ l := by
  cases l with
  | nil => exact absurd rfl hne
  | cons h t =>
    rcases foldl_max_mem t h with heq | hmem
    · rw [pyMax, heq]; exact List.mem_cons_self h t
    · exact List.mem_cons_of_mem h hmem

/-- Row-major (scan) order on pixels: the order in which `np.where` lists the
coordinates of a labelled region. -/
def rowMajorLE (p q : Pixel) : Prop :=
  p.1 < q.1 ∨ (p.1 = q.1 ∧ p.2 ≤ q.2)

instance : DecidableRel rowMajorLE :=
  fun p q => decidable_of_iff (p.1 < q.1 ∨ (p.1 = q.1 ∧ p.2 ≤ q.2)) Iff.rfl

/-- In a row-major-sorted pixel list, the first pixel found with a given
column value has the smallest row among all pixels with that column. -/
theorem find_col_first_row (m : Int) :
    ∀ l : List Pixel, l.Pairwise rowMajorLE → ∀ q : Pixel,
      l.find? (fun p => p.2 == m) = some q →
      q ∈ l ∧ q.2 = m ∧ ∀ p ∈ l, p.2 = m → q.1 ≤ p.1 := by
  intro l
  induction l with
  | nil => intro _ q hq; cases hq
  | cons a t ih =>
    intro hpw q hq
    have hpw' := List.pairwise_cons.mp hpw
    by_cases h : a.2 = m
    · have : (a :: t).find? (fun p => p.2 == m) = some a := by
        simp [List.find?, h]
      rw [this] at hq
      cases hq
      refine ⟨List.mem_cons_self a t, h, ?_⟩
      intro p hp _
      rcases List.mem_cons.mp hp with rfl | hp
      · exact le_refl _
      · rcases hpw'.1 p hp with hlt | ⟨heq, _⟩
        · exact le_of_lt hlt
        · exact le_of_eq heq
    · have hb : (a.2 == m) = false := beq_eq_false_iff_ne.mpr h
      have : (a :: t).find? (fun p => p.2 == m) = t.find? (fun p => p.2 == m) := by
        simp [List.find?, hb]
      rw [this] at hq
      obtain ⟨hmem, hcol, hrow⟩ := ih hpw'.2 q hq
      refine ⟨List.mem_cons_of_mem a hmem, hcol, ?_⟩
      intro p hp hpm
      rcases List.mem_cons.mp hp with rfl | hp
      · exact absurd hpm h
      · exact hrow p hp hpm

/-- C8: for every non-empty component whose pixel list is in row-major order
(as delivered by `np.where`), the descriptor built by `Cc_with_type.__init__`
has `cc_left` equal to a pixel of the component whose column is the minimum
column, the first in row order among the pixels sharing that minimum column
(its row bounds theirs from below), and `cc_right` analogously for the
maximum column. -/
theorem c8_extremes_are_first_min_max_columns (pixels : List Pixel) (t : CcType)
    (hne : pixels ≠ []) (hsort : pixels.Pairwise rowMajorLE) :
    (∀ p ∈ pixels, pyMin (pixels.map Prod.snd) ≤ p.2 ∧ p.2 ≤ pyMax (pixels.map Prod.snd)) ∧
    ((mkCc pixels t).cc_left ∈ pixels ∧
      (mkCc pixels t).cc_left.2 = pyMin (pixels.map Prod.snd) ∧
      ∀ p ∈ pixels, p.2 = pyMin (pixels.map Prod.snd) → (mkCc pixels t).cc_left.1 ≤ p.1) ∧
    ((mkCc pixels t).cc_right ∈ pixels ∧
      (mkCc pixels t).cc_right.2 = pyMax (pixels.map Prod.snd) ∧
      ∀ p ∈ pixels, p.2 = pyMax (pixels.map Prod.snd) → (mkCc pixels t).cc_right.1 ≤ p.1) := by
  have hcols : pixels.map Prod.snd ≠ [] := by
    intro h
    exact hne (List.map_eq_nil_iff.mp h)
  refine ⟨?_, ?_, ?_⟩
  · intro p hp
    exact ⟨pyMin_le _ _ (List.mem_map_of_mem Prod.snd hp),
      le_pyMax _ _ (List.mem_map_of_mem Prod.snd hp)⟩
  · obtain ⟨p0, hp0, hp0c⟩ := List.mem_map.mp (pyMin_mem _ hcols)
    cases hfind : pixels.find? (fun p => p.2 == pyMin (pixels.map Prod.snd)) with
    | none =>
      exfalso
      exact absurd (beq_iff_eq.mpr hp0c) (List.find?_eq_none.mp hfind p0 hp0)
    | some q =>
      have hq := find_col_first_row _ pixels hsort q hfind
      have hl : (mkCc pixels t).cc_left = q := by
        simp [mkCc, hfind]
      rw [hl]
      exact hq
  · obtain ⟨p0, hp0, hp0c⟩ := List.mem_map.mp (pyMax_mem _ hcols)
    cases hfind : pixels.find? (fun p => p.2 == pyMax (pixels.map Prod.snd)) with
    | none =>
      exfalso
      exact absurd (beq_iff_eq.mpr hp0c) (List.find?_eq_none.mp hfind p0 hp0)
    | some q =>
      have hq := find_col_first_row _ pixels hsort q hfind
      have hr : (mkCc pixels t).cc_right = q := by
        simp [mkCc, hfind]
      rw [hr]
      exact hq

/-- C8 witness: the extremes statement applied to the concrete row-major
component `[(0, 4), (1, 2), (2, 2), (2, 7)]`. -/
theorem c8_witness :
    (([((0 : Int), (4 : Int)), (1, 2), (2, 2), (2, 7)] : List Pixel) ≠ [] ∧
        ([((0 : Int), (4 : Int)), (1, 2), (2, 2), (2, 7)] : List Pixel).Pairwise rowMajorLE) ∧
      ((mkCc [((0 : Int), (4 : Int)), (1, 2), (2, 2), (2, 7)] CcType.baseline).cc_left ∈
          ([((0 : Int), (4 : Int)), (1, 2), (2, 2), (2, 7)] : List Pixel) ∧
        (mkCc [((0 : Int), (4 : Int)), (1, 2), (2, 2), (2, 7)] CcType.baseline).cc_left.2 =
          pyMin (([((0 : Int), (4 : Int)), (1, 2), (2, 2), (2, 7)] : List Pixel).map Prod.snd) ∧
        ∀ p ∈ ([((0 : Int), (4 : Int)), (1, 2), (2, 2), (2, 7)] : List Pixel),
          p.2 = pyMin (([((0 : Int), (4 : Int)), (1, 2), (2, 2), (2, 7)] : List Pixel).map Prod.snd) →
          (mkCc [((0 : Int), (4 : Int)), (1, 2), (2, 2), (2, 7)] CcType.baseline).cc_left.1 ≤ p.1) :=
  ⟨⟨by decide, by decide⟩,
    (c8_extremes_are_first_min_max_columns [((0 : Int), (4 : Int)), (1, 2), (2, 2), (2, 7)]
        CcType.baseline (by decide) (by decide)).2.1⟩

/-- Insertion of an integer into a sorted list (ascending). -/
def insertInt (a : Int) : List Int → List Int
  | [] => [a]
  | b :: t => if a ≤ b then a :: b :: t else b :: insertInt a t

/-- Insertion sort on integers, modelling Python's `sorted` on the distinct
dictionary keys. -/
def sortInts : List Int → List Int
  | [] => []
  | a :: t => insertInt a (sortInts t)

/-- Inserting permutes: `insertInt a l` is a permutation of `a :: l`. -/
theorem insertInt_perm (a : Int) (l : List Int) : (insertInt a l).Perm (a :: l) := by
  induction l with
  | nil => exact List.Perm.refl _
  | cons b t ih =>
    rw [insertInt]
    by_cases hab : a ≤ b
    · rw [if_pos hab]
    · rw [if_neg hab]
      exact List.Perm.trans (List.Perm.cons b ih) (List.Perm.swap a b t)

/-- Sorting permutes: `sortInts l` is a permutation of `l`. -/
theorem sortInts_perm (l : List Int) : (sortInts l).Perm l := by
  induction l with
  | nil => exact List.Perm.refl _
  | cons a t ih =>
    rw [sortInts]
    exact List.Perm.trans (insertInt_perm a (sortInts t)) (List.Perm.cons a ih)

/-- Inserting into a sorted list keeps it sorted. -/
theorem insertInt_sorted (a : Int) (l : List Int) (h : l.Pairwise (· ≤ ·)) :
    (insertInt a l).Pairwise (· ≤ ·) := by
  induction l with
  | nil => exact List.pairwise_singleton _ a
  | cons b t ih =>
    rw [insertInt]
    have hb := List.pairwise_cons.mp h
    by_cases hab : a ≤ b
    · rw [if_pos hab]
      refine List.Pairwise.cons ?_ h
      intro x hx
      rcases List.mem_cons.mp hx with rfl | hx
      · exact hab
      · exact le_trans hab (hb.1 x hx)
    · rw [if_neg hab]
      refine List.Pairwise.cons ?_ (ih hb.2)
      intro x hx
      rcases (insertInt_perm a t).mem_iff.mp hx with hx'
      rcases List.mem_cons.mp hx' with rfl | hx''
      · exact le_of_lt (lt_of_not_le hab)
      · exact hb.1 x hx''

/-- The insertion sort produces an ascending list. -/
theorem sortInts_sorted (l : List Int) : (sortInts l).Pairwise (· ≤ ·) := by
  induction l with
  | nil => exact List.Pairwise.nil
  | cons a t ih => exact insertInt_sorted a (sortInts t) ih

/-- Round-half-up of the mean of a list of integers, modelling
`int(np.floor(np.mean(value) + 0.5))` in `normalize_connected_components`. -/
def roundHalfMean (rows : List Int) : Int :=
  ⌊(rows.sum : ℚ) / (rows.length : ℚ) + 1 / 2⌋

/-- The list of rows of the pixels of `cc` lying in column `k`, in input
order: the value list `cc_dict[k]` of `normalize_connected_components`. -/
def rowsAtColumn (cc : List Pixel) (k : Int) : List Int :=
  (cc.filter (fun p => p.2 == k)).map Prod.fst

/-- Normalisation of a single cluster (source lines 403-415): group the
pixels by column, sort the distinct columns ascending, and emit one
`(roundHalfMean of rows, column)` pair per distinct column. -/
def normalizeCc (cc : List Pixel) : List Pixel :=
  (sortInts (cc.map Prod.snd).dedup).map (fun k => (roundHalfMean (rowsAtColumn cc k), k))

/-- The function `normalize_connected_components` (source lines 401-417):
normalises every cluster of the list. -/
def normalize_connected_components (cc_list : List (List Pixel)) : List (List Pixel) :=
  cc_list.map normalizeCc

/-- Shape of the normalised output of a cluster: strictly increasing
columns, columns exactly the distinct input columns, and every sample built
from the rounded row mean of its column. -/
theorem normalizeCc_shape (cc : List Pixel) :
    (normalizeCc cc).Pairwise (fun p q => p.2 < q.2) ∧
    (∀ k : Int, k ∈ (normalizeCc cc).map Prod.snd ↔ k ∈ cc.map Prod.snd) ∧
    ∀ p ∈ normalizeCc cc, p = (roundHalfMean (rowsAtColumn cc p.2), p.2) := by
  have hperm := sortInts_perm (cc.map Prod.snd).dedup
  have hsorted := sortInts_sorted (cc.map Prod.snd).dedup
  have hnodup : (sortInts (cc.map Prod.snd).dedup).Nodup :=
    hperm.nodup_iff.mpr (List.nodup_dedup _)
  have hlt : (sortInts (cc.map Prod.snd).dedup).Pairwise (· < ·) :=
    List.Pairwise.imp₂ (fun a b hab hne => lt_of_le_of_ne hab hne) hsorted hnodup
  have hmapsnd : (normalizeCc cc).map Prod.snd = sortInts (cc.map Prod.snd).dedup := by
    rw [normalizeCc, List.map_map]
    exact List.map_id _
  refine ⟨?_, ?_, ?_⟩
  · exact List.pairwise_map.mpr hlt
  · intro k
    rw [hmapsnd, hperm.mem_iff, List.mem_dedup]
  · intro p hp
    obtain ⟨k, _, rfl⟩ := List.mem_map.mp hp
    rfl

/-- C6: for every cluster pixel list, the normalised output of the curve
normaliser is strictly increasing in the column coordinate, its columns are
exactly the distinct columns present in the cluster, and every emitted
sample is the pair `(roundHalfMean of the rows at that column, column)`. -/
theorem c6_normalizer_shape (cc : List Pixel) :
    (normalizeCc cc).Pairwise (fun p q => p.2 < q.2) ∧
    (∀ k : Int, k ∈ (normalizeCc cc).map Prod.snd ↔ k ∈ cc.map Prod.snd) ∧
    ∀ p ∈ normalizeCc cc, p = (roundHalfMean (rowsAtColumn cc p.2), p.2) :=
  normalizeCc_shape cc

/-- C6 witness: the shape statement instantiated at the one-pixel cluster
`[(5, 3)]`, whose unique output sample is `(5, 3)` itself. -/
theorem c6_witness :
    ((5 : Int), (3 : Int)) ∈ normalizeCc [((5 : Int), (3 : Int))] ∧
      ((5 : Int), (3 : Int)) =
        (roundHalfMean (rowsAtColumn [((5 : Int), (3 : Int))] ((5 : Int), (3 : Int)).2),
          ((5 : Int), (3 : Int)).2) :=
  ⟨by norm_num [normalizeCc, sortInts, insertInt, rowsAtColumn, roundHalfMean, List.dedup],
    (c6_normalizer_shape [((5 : Int), (3 : Int))]).2.2 ((5 : Int), (3 : Int))
      (by norm_num [normalizeCc, sortInts, insertInt, rowsAtColumn, roundHalfMean, List.dedup])⟩

/-- The rounded mean of a non-empty integer list lies between the list's
minimum and maximum. -/
theorem roundHalfMean_bounds (rows : List Int) (hne : rows ≠ []) :
    pyMin rows ≤ roundHalfMean rows ∧ roundHalfMean rows ≤ pyMax rows := by
  have hlen : 0 < rows.length := List.length_pos.mpr hne
  have hlenQ : (0 : ℚ) < (rows.length : ℚ) := by exact_mod_cast hlen
  have hsum_ge : (rows.length : Int) • pyMin rows ≤ rows.sum := by
    have := List.card_nsmul_le_sum rows (pyMin rows) (fun x hx => pyMin_le rows x hx)
    simpa using this
  have hsum_le : rows.sum ≤ (rows.length : Int) • pyMax rows := by
    have := List.sum_le_card_nsmul rows (pyMax rows) (fun x hx => le_pyMax rows x hx)
    simpa using this
  have hmean_ge : (pyMin rows : ℚ) ≤ (rows.sum : ℚ) / (rows.length : ℚ) := by
    rw [le_div_iff₀ hlenQ]
    have : ((rows.length : Int) : ℚ) * (pyMin rows : ℚ) ≤ (rows.sum : ℚ) := by
      exact_mod_cast (by simpa [smul_eq_mul] using hsum_ge :
        (rows.length : Int) * pyMin rows ≤ rows.sum)
    calc (pyMin rows : ℚ) * (rows.length : ℚ)
        = ((rows.length : Int) : ℚ) * (pyMin rows : ℚ) := by push_cast; ring
    _ ≤ (rows.sum : ℚ) := this
  have hmean_le : (rows.sum : ℚ) / (rows.length : ℚ) ≤ (pyMax rows : ℚ) := by
    rw [div_le_iff₀ hlenQ]
    have : (rows.sum : ℚ) ≤ ((rows.length : Int) : ℚ) * (pyMax rows : ℚ) := by
      exact_mod_cast (by simpa [smul_eq_mul] using hsum_le :
        rows.sum ≤ (rows.length : Int) * pyMax rows)
    calc (rows.sum : ℚ) ≤ ((rows.length : Int) : ℚ) * (pyMax rows : ℚ) := this
    _ = (pyMax rows : ℚ) * (rows.length : ℚ) := by push_cast; ring
  have hhalf : ⌊((1 : ℚ) / 2)⌋ = 0 := by norm_num
  constructor
  · have h1 : pyMin rows = ⌊(pyMin rows : ℚ) + 1 / 2⌋ := by
      rw [Int.floor_int_add, hhalf, add_zero]
    rw [roundHalfMean, h1]
    exact Int.floor_le_floor (by linarith)
  · have h2 : ⌊(pyMax rows : ℚ) + 1 / 2⌋ = pyMax rows := by
      rw [Int.floor_int_add, hhalf, add_zero]
    rw [roundHalfMean, ← h2]
    exact Int.floor_le_floor (by linarith)

/-- C10: every sample emitted by the curve normaliser has a vertical position
between the minimum and the maximum row of the cluster's pixels at that
sample's column. -/
theorem c10_normalized_row_within_extent (cc : List Pixel) (p : Pixel)
    (hp : p ∈ normalizeCc cc) :
    rowsAtColumn cc p.2 ≠ [] ∧
      pyMin (rowsAtColumn cc p.2) ≤ p.1 ∧ p.1 ≤ pyMax (rowsAtColumn cc p.2) := by
  have hshape := normalizeCc_shape cc
  have hval := hshape.2.2 p hp
  have hcol : p.2 ∈ cc.map Prod.snd := by
    refine (hshape.2.1 p.2).mp ?_
    exact List.mem_map_of_mem Prod.snd hp
  obtain ⟨q, hq, hqc⟩ := List.mem_map.mp hcol
  have hmem : q.1 ∈ rowsAtColumn cc p.2 := by
    refine List.mem_map_of_mem Prod.fst ?_
    exact List.mem_filter.mpr ⟨hq, beq_iff_eq.mpr hqc⟩
  have hne : rowsAtColumn cc p.2 ≠ [] := List.ne_nil_of_mem hmem
  have hbounds := roundHalfMean_bounds (rowsAtColumn cc p.2) hne
  have hp1 : p.1 = roundHalfMean (rowsAtColumn cc p.2) := by
    rw [hval]
  exact ⟨hne, by rw [hp1]; exact hbounds.1, by rw [hp1]; exact hbounds.2⟩

/-- C10 witness: the bound applied to the one-pixel cluster `[(5, 3)]` and
its output sample `(5, 3)`. -/
theorem c10_witness :
    ((5 : Int), (3 : Int)) ∈ normalizeCc [((5 : Int), (3 : Int))] ∧
      (rowsAtColumn [((5 : Int), (3 : Int))] ((5 : Int), (3 : Int)).2 ≠ [] ∧
        pyMin (rowsAtColumn [((5 : Int), (3 : Int))] ((5 : Int), (3 : Int)).2) ≤
          ((5 : Int), (3 : Int)).1 ∧
        ((5 : Int), (3 : Int)).1 ≤
          pyMax (rowsAtColumn [((5 : Int), (3 : Int))] ((5 : Int), (3 : Int)).2)) :=
  ⟨by norm_num [normalizeCc, sortInts, insertInt, rowsAtColumn, roundHalfMean, List.dedup],
    c10_normalized_row_within_extent [((5 : Int), (3 : Int))] ((5 : Int), (3 : Int))
      (by norm_num [normalizeCc, sortInts, insertInt, rowsAtColumn, roundHalfMean, List.dedup])⟩

/-- Foreground pixels of one row of the label mask, with their `(row, column)`
coordinates, scanning columns left to right (part of modelling
`np.where(image_map == index)`). -/
def rowForeground (cls : Nat) (r : Int) : Int → List Nat → List Pixel
  | _, [] => []
  | c, v :: vs =>
    if v = cls then (r, c) :: rowForeground cls r (c + 1) vs
    else rowForeground cls r (c + 1) vs

/-- Foreground pixels of the whole label mask in row-major order, modelling
`np.where(image_map == index)` (source lines 295-296). -/
def gridForeground (cls : Nat) : Int → List (List Nat) → List Pixel
  | _, [] => []
  | r, row :: rows => rowForeground cls r 0 row ++ gridForeground cls (r + 1) rows

/-- All pixels of the mask equal to the given class index, row-major. -/
def foregroundPixels (image_map : List (List Nat)) (cls : Nat) : List Pixel :=
  gridForeground cls 0 image_map

/-- Four-adjacency of pixels: the default cross-shaped structuring element
of `scipy.ndimage.measurements.label`. -/
def adjacent (p q : Pixel) : Bool :=
  (p.1 == q.1 && (p.2 == q.2 + 1 || q.2 == p.2 + 1)) ||
    (p.2 == q.2 && (p.1 == q.1 + 1 || q.1 == p.1 + 1))

/-- One round of region growing: pixels of `rem` adjacent to the current
region move into it.  `fuel` bounds the number of rounds. -/
def growRegion : Nat → List Pixel → List Pixel → List Pixel × List Pixel
  | 0, cur, rem => (cur, rem)
  | fuel + 1, cur, rem =>
    let fresh := rem.filter (fun q => cur.any (fun p => adjacent p q))
    if fresh.isEmpty then (cur, rem)
    else
      growRegion fuel (cur ++ fresh) (rem.filter (fun q => !(cur.any (fun p => adjacent p q))))

/-- Split a pixel list into connected regions, seed by seed, in list order
(the order in which `scipy` numbers components is the row-major order of
their first pixels). -/
def splitRegions : Nat → List Pixel → List (List Pixel)
  | 0, _ => []
  | _ + 1, [] => []
  | fuel + 1, p :: rest =>
    let grown := growRegion (p :: rest).length [p] rest
    grown.1 :: splitRegions fuel grown.2

/-- Connected components of a pixel set under 4-adjacency, each listed in the
row-major order of the input (as `np.where(labelled == id)` lists the pixels
of component `id` in row-major order regardless of discovery order). -/
def extractComponents (pts : List Pixel) : List (List Pixel) :=
  (splitRegions pts.length pts).map (fun comp => pts.filter (fun p => comp.contains p))

/-- The surviving descriptors of the pipeline (source lines 325-329): both
per-class component lists are filtered by pixel count `> 10` and turned into
typed descriptors, baseline components first. -/
def ccsFromComponents (baseComps borderComps : List (List Pixel)) : List Cc_with_type :=
  ((baseComps.filter (fun c => 10 < c.length)).map (fun c => mkCc c CcType.baseline)) ++
    ((borderComps.filter (fun c => 10 < c.length)).map
      (fun c => mkCc c CcType.baseline_border))

/-- Indices at distance at most `eps` from `i` in the precomputed matrix:
the neighbourhood query of `DBSCAN(eps=50, min_samples=1,
metric="precomputed")`. -/
def dbscanNeighbors (n : Nat) (d : Nat → Nat → ℚ) (eps : ℚ) (i : Nat) : List Nat :=
  (List.range n).filter (fun j => decide (d i j ≤ eps))

/-- Expansion of one DBSCAN cluster from a seed: with `min_samples = 1` every
point is a core point, so the cluster is the forward closure of the seed
through neighbourhood queries, restricted to still-unlabelled points. -/
def dbscanExpand (n : Nat) (d : Nat → Nat → ℚ) (eps : ℚ) (assigned : List Nat) :
    Nat → List Nat → List Nat → List Nat
  | 0, _, cluster => cluster
  | _ + 1, [], cluster => cluster
  | fuel + 1, i :: frontier, cluster =>
    let fresh := (dbscanNeighbors n d eps i).filter
      (fun j => !(cluster.contains j) && !(assigned.contains j))
    dbscanExpand n d eps assigned fuel (frontier ++ fresh) (cluster ++ fresh)

/-- The scan of `dbscan_inner`: visit indices in order, start a new cluster
at every still-unlabelled index, and record `(index, label)` pairs. -/
def dbscanScan (n : Nat) (d : Nat → Nat → ℚ) (eps : ℚ) :
    Nat → Nat → List Nat → List (Nat × Nat) → Nat → List (Nat × Nat)
  | 0, _, _, pairs, _ => pairs
  | fuel + 1, i, assigned, pairs, next =>
    if i ≥ n then pairs
    else if assigned.contains i then dbscanScan n d eps fuel (i + 1) assigned pairs next
    else
      let cluster := dbscanExpand n d eps assigned (n + 1) [i] [i]
      dbscanScan n d eps fuel (i + 1) (assigned ++ cluster)
        (pairs ++ cluster.map (fun j => (j, next))) (next + 1)

/-- Cluster labels of `DBSCAN(eps, min_samples=1, metric="precomputed")` on
an `n`-point precomputed matrix `d`. -/
def dbscanLabels (n : Nat) (d : Nat → Nat → ℚ) (eps : ℚ) : List Nat :=
  let pairs := dbscanScan n d eps n 0 [] [] 0
  (List.range n).map (fun i => ((pairs.find? (fun pr => pr.1 == i)).getD (i, 0)).2)

/-- Insertion sort on naturals, modelling the sorted order of `np.unique`. -/
def insertNat (a : Nat) : List Nat → List Nat
  | [] => [a]
  | b :: t => if a ≤ b then a :: b :: t else b :: insertNat a t

/-- Sorting of naturals for `np.unique(t.labels_)`. -/
def sortNats : List Nat → List Nat
  | [] => []
  | a :: t => insertNat a (sortNats t)

/-- Error message of `sklearn`: fitting `DBSCAN` on a 0-sample (empty)
precomputed matrix fails validation. -/
def dbscanEmptyError : String :=
  "ValueError: Found array with 0 samples while a minimum of 1 is required by DBSCAN"

/-- Error message of line 394 of the source: `list(zip(x[1][0], x[1][1]))`
indexes the concatenated column array at positions 0 and 1 and hands the two
scalar integers to `zip`, which rejects non-iterable arguments. -/
def zipScalarError : String :=
  "TypeError: zip argument 1 must support iteration"

/-- The tail of `extract_baselines` downstream of descriptor construction
(source lines 331-418): build the matrix, cluster with
`DBSCAN(eps=50, min_samples=1, metric="precomputed")`, group the pixels of
each cluster label (sorted as by `np.unique`), convert every cluster to
coordinate pairs, and normalise.  Fitting DBSCAN on an empty matrix raises,
and the pair-conversion of any non-empty cluster list raises at line 394. -/
def pipelineFromCcs (all : List Cc_with_type) : Except String (List (List Pixel)) :=
  if all.length = 0 then Except.error dbscanEmptyError
  else
    let labels := dbscanLabels all.length (calculate_distance_matrix 50 all) 50
    let clusters := (sortNats labels.dedup).map (fun lab =>
      (((List.range all.length).filter (fun i => labels.getD i 0 == lab)).map
        (fun i => (all.getD i default).cc)).flatten)
    if clusters.isEmpty then Except.ok (normalize_connected_components [])
    else Except.error zipScalarError

/-- The pipeline from the two per-class component lists onward. -/
def pipelineFromComponents (baseComps borderComps : List (List Pixel)) :
    Except String (List (List Pixel)) :=
  pipelineFromCcs (ccsFromComponents baseComps borderComps)

/-- The function `extract_baselines` (source lines 291-418) with the default
class indices `base_line_index=1`, `base_line_border_index=2`, modelled from
the raw mask to the list of normalised polylines (or the first raised
library error). -/
def extract_baselines (image_map : List (List Nat)) : Except String (List (List Pixel)) :=
  pipelineFromComponents (extractComponents (foregroundPixels image_map 1))
    (extractComponents (foregroundPixels image_map 2))

/-- All descriptors the pipeline builds for a mask. -/
def allCcsOf (image_map : List (List Nat)) : List Cc_with_type :=
  ccsFromComponents (extractComponents (foregroundPixels image_map 1))
    (extractComponents (foregroundPixels image_map 2))

/-- A mask row with no occurrence of the class value contributes no
foreground pixel. -/
theorem rowForeground_eq_nil (cls : Nat) (r : Int) :
    ∀ (row : List Nat) (c : Int), (∀ v ∈ row, v ≠ cls) → rowForeground cls r c row = [] := by
  intro row
  induction row with
  | nil => intro c _; rfl
  | cons v vs ih =>
    intro c h
    rw [rowForeground, if_neg (h v (List.mem_cons_self v vs))]
    exact ih (c + 1) (fun w hw => h w (List.mem_cons_of_mem v hw))

/-- A mask with no occurrence of the class value has empty foreground. -/
theorem gridForeground_eq_nil (cls : Nat) :
    ∀ (rows : List (List Nat)) (r : Int),
      (∀ row ∈ rows, ∀ v ∈ row, v ≠ cls) → gridForeground cls r rows = [] := by
  intro rows
  induction rows with
  | nil => intro r _; rfl
  | cons row rest ih =>
    intro r h
    rw [gridForeground,
      rowForeground_eq_nil cls r row 0 (h row (List.mem_cons_self row rest)),
      List.nil_append]
    exact ih (r + 1) (fun rw hrw v hv => h rw (List.mem_cons_of_mem row hrw) v hv)

/-- C3 (code behaviour): for every label mask containing no baseline pixel
and no baseline-border pixel, the pipeline reaches `DBSCAN.fit` with an
empty 0-by-0 precomputed matrix and `sklearn` raises; `extract_baselines`
errors instead of returning an empty list of polylines. -/
theorem c3_empty_mask_raises (image_map : List (List Nat))
    (h : ∀ row ∈ image_map, ∀ v ∈ row, v ≠ 1 ∧ v ≠ 2) :
    extract_baselines image_map = Except.error dbscanEmptyError := by
  have h1 : foregroundPixels image_map 1 = [] :=
    gridForeground_eq_nil 1 image_map 0 (fun row hr v hv => (h row hr v hv).1)
  have h2 : foregroundPixels image_map 2 = [] :=
    gridForeground_eq_nil 2 image_map 0 (fun row hr v hv => (h row hr v hv).2)
  rw [extract_baselines, h1, h2]
  rfl

/-- C3 witness: the all-background mask `[[0]]` makes the pipeline raise the
`sklearn` validation error, hence it does not return `Except.ok []`. -/
theorem c3_witness :
    (∀ row ∈ ([[0]] : List (List Nat)), ∀ v ∈ row, v ≠ 1 ∧ v ≠ 2) ∧
      extract_baselines [[0]] = Except.error dbscanEmptyError ∧
      extract_baselines [[0]] ≠ Except.ok [] := by
  refine ⟨by decide, c3_empty_mask_raises [[0]] (by decide), ?_⟩
  rw [c3_empty_mask_raises [[0]] (by decide)]
  intro hcontr
  cases hcontr

/-- Any component list reachable through the descriptors has more than 10
pixels: the filter of source lines 325-327 admits only `len(x[0]) > 10`. -/
theorem mem_ccs_cc_large (b br : List (List Pixel)) (c : List Pixel)
    (h : c ∈ (ccsFromComponents b br).map Cc_with_type.cc) : 10 < c.length := by
  rw [ccsFromComponents, List.map_append] at h
  rcases List.mem_append.mp h with h' | h' <;>
  · rw [List.map_map] at h'
    obtain ⟨comp, hcomp, heq⟩ := List.mem_map.mp h'
    have := (List.mem_filter.mp hcomp).2
    have hlen : 10 < comp.length := by simpa using this
    have hcc : comp = c := heq
    exact hcc ▸ hlen

/-- C7: a component with at most 10 pixels survives no stage.  It is not the
pixel set of any descriptor the pipeline builds for any mask, and deleting
it from either per-class component list changes neither the descriptor list
(hence neither the distance matrix nor the cluster labels, which are
functions of that list) nor the final pipeline outcome. -/
theorem c7_small_component_excluded (c : List Pixel) (hc : c.length ≤ 10) :
    (∀ image_map : List (List Nat), c ∉ (allCcsOf image_map).map Cc_with_type.cc) ∧
    (∀ b1 b2 br : List (List Pixel),
      ccsFromComponents (b1 ++ c :: b2) br = ccsFromComponents (b1 ++ b2) br ∧
      pipelineFromComponents (b1 ++ c :: b2) br = pipelineFromComponents (b1 ++ b2) br) ∧
    (∀ b d1 d2 : List (List Pixel),
      ccsFromComponents b (d1 ++ c :: d2) = ccsFromComponents b (d1 ++ d2) ∧
      pipelineFromComponents b (d1 ++ c :: d2) = pipelineFromComponents b (d1 ++ d2)) := by
  have hfilter : ∀ l1 l2 : List (List Pixel),
      (l1 ++ c :: l2).filter (fun x => 10 < x.length) =
        (l1 ++ l2).filter (fun x => 10 < x.length) := by
    intro l1 l2
    rw [List.filter_append, List.filter_append, List.filter_cons]
    simp [Nat.not_lt.mpr hc]
  refine ⟨?_, ?_, ?_⟩
  · intro image_map hmem
    have := mem_ccs_cc_large _ _ c hmem
    omega
  · intro b1 b2 br
    have hccs : ccsFromComponents (b1 ++ c :: b2) br = ccsFromComponents (b1 ++ b2) br := by
      rw [ccsFromComponents, ccsFromComponents, hfilter]
    exact ⟨hccs, congrArg pipelineFromCcs hccs⟩
  · intro b d1 d2
    have hccs : ccsFromComponents b (d1 ++ c :: d2) = ccsFromComponents b (d1 ++ d2) := by
      rw [ccsFromComponents, ccsFromComponents, hfilter]
    exact ⟨hccs, congrArg pipelineFromCcs hccs⟩

/-- C7 witness: the 3-pixel component `[(0,0), (0,1), (0,2)]` is not among
the descriptors of the mask `[[1,1,1]]` (where it is the only baseline
component), and deleting it from the baseline component list leaves the
pipeline outcome unchanged. -/
theorem c7_witness :
    ([((0 : Int), (0 : Int)), (0, 1), (0, 2)] : List Pixel).length ≤ 10 ∧
      [((0 : Int), (0 : Int)), (0, 1), (0, 2)] ∉
        (allCcsOf [[1, 1, 1]]).map Cc_with_type.cc ∧
      pipelineFromComponents [[((0 : Int), (0 : Int)), (0, 1), (0, 2)]] [] =
        pipelineFromComponents [] [] :=
  ⟨by decide,
    (c7_small_component_excluded [((0 : Int), (0 : Int)), (0, 1), (0, 2)] (by decide)).1
      [[1, 1, 1]],
    ((c7_small_component_excluded [((0 : Int), (0 : Int)), (0, 1), (0, 2)] (by decide)).2.1
      [] [] []).2⟩

/-- A single channel image: a list of pixel rows. -/
abbrev Mat := List (List ℚ)

/-- A 4-dimensional tensor `(batch, channel, height, width)` as nested lists. -/
abbrev Tensor4 := List (List Mat)

/-- The padding amount of `pad` (source lines 29-32): `factor - n % factor`,
reset to 0 when it equals `factor` (i.e. when `n` is already a multiple). -/
def padDiff (factor n : Nat) : Nat :=
  if factor - n % factor = factor then 0 else factor - n % factor

/-- The two spatial dimension sizes `list(tensor.shape)[2:]` of a 4-d
tensor. -/
def tensorShape (t : Tensor4) : Nat × Nat :=
  (((t.headD []).headD []).length, (((t.headD []).headD []).headD []).length)

/-- Padding of one height-by-width image with zeros on the right and the
bottom, as `torch.nn.functional.pad(input, pad=[0, x_dif, 0, h_dif])` does
to the last two dimensions. -/
def padMat (hdif wdif w : Nat) (m : Mat) : Mat :=
  m.map (fun r => r ++ List.replicate wdif 0) ++
    List.replicate hdif (List.replicate (w + wdif) 0)

/-- The function `pad` (source lines 27-36): computes the two padding
amounts from the spatial shape and pads every image of the tensor; when both
amounts are zero, the tensor is returned untouched. -/
def pad (tensor : Tensor4) (factor : Nat) : Tensor4 :=
  let hdif := padDiff factor (tensorShape tensor).1
  let wdif := padDiff factor (tensorShape tensor).2
  if hdif ≠ 0 ∨ wdif ≠ 0 then
    tensor.map (fun ch => ch.map (padMat hdif wdif (tensorShape tensor).2))
  else tensor

/-- The function `unpad` (source lines 39-41): crops every image back to the
original spatial shape by `tensor[:, :, :o_shape[0], :o_shape[1]]`. -/
def unpad (tensor : Tensor4) (o_shape : Nat × Nat) : Tensor4 :=
  tensor.map (fun ch => ch.map (fun m => (m.take o_shape.1).map (fun r => r.take o_shape.2)))

/-- Mapping a function that fixes every element of a list is the identity. -/
theorem map_fix_eq_self {α : Type} (l : List α) (f : α → α) (h : ∀ x ∈ l, f x = x) :
    l.map f = l := by
  induction l with
  | nil => rfl
  | cons a t ih =>
    rw [List.map_cons, h a (List.mem_cons_self a t),
      ih (fun x hx => h x (List.mem_cons_of_mem a hx))]

/-- Cropping an h-by-w image to shape (h, w) is the identity. -/
theorem crop_id (m : Mat) (h w : Nat) (hm : m.length = h) (hw : ∀ r ∈ m, r.length = w) :
    (m.take h).map (fun r => r.take w) = m := by
  subst hm
  rw [List.take_length]
  refine map_fix_eq_self m _ ?_
  intro r hr
  rw [← hw r hr]
  exact List.take_length r

/-- Cropping a padded h-by-w image back to shape (h, w) recovers the
image. -/
theorem crop_padMat (m : Mat) (h w hdif wdif : Nat) (hm : m.length = h)
    (hw : ∀ r ∈ m, r.length = w) :
    ((padMat hdif wdif w m).take h).map (fun r => r.take w) = m := by
  rw [padMat]
  have hlen : (m.map (fun r => r ++ List.replicate wdif 0)).length = h := by
    rw [List.length_map, hm]
  have htake : ((m.map (fun r => r ++ List.replicate wdif 0)) ++
      List.replicate hdif (List.replicate (w + wdif) 0)).take h =
      m.map (fun r => r ++ List.replicate wdif 0) := by
    rw [← hlen]
    exact List.take_left _ _
  rw [htake, List.map_map]
  refine map_fix_eq_self m _ ?_
  intro r hr
  have hrw : r.length = w := hw r hr
  calc ((r ++ List.replicate wdif 0).take w)
      = (r ++ List.replicate wdif 0).take r.length := by rw [hrw]
  _ = r := List.take_left r _

/-- C9: for every 4-d tensor of uniform spatial shape, padding to the next
multiple of 32 and cropping back to the original last-two-dimension sizes is
the identity. -/
theorem c9_unpad_pad_roundtrip (t : Tensor4)
    (hrect : ∀ ch ∈ t, ∀ m ∈ ch,
      m.length = (tensorShape t).1 ∧ ∀ r ∈ m, r.length = (tensorShape t).2) :
    unpad (pad t 32) (tensorShape t) = t := by
  rw [pad]
  by_cases hcond : padDiff 32 (tensorShape t).1 ≠ 0 ∨ padDiff 32 (tensorShape t).2 ≠ 0
  · rw [if_pos hcond, unpad, List.map_map]
    refine map_fix_eq_self t _ ?_
    intro ch hch
    simp only [Function.comp_apply, List.map_map]
    refine map_fix_eq_self ch _ ?_
    intro m hm
    simp only [Function.comp_apply]
    exact crop_padMat m _ _ _ _ ((hrect ch hch m hm).1) ((hrect ch hch m hm).2)
  · rw [if_neg hcond, unpad]
    refine map_fix_eq_self t _ ?_
    intro ch hch
    refine map_fix_eq_self ch _ ?_
    intro m hm
    exact crop_id m _ _ ((hrect ch hch m hm).1) ((hrect ch hch m hm).2)

/-- C9 witness: the round trip on the concrete 1x1x1x1 tensor `[[[[1]]]]`
(padded to 32x32 and cropped back to 1x1). -/
theorem c9_witness :
    (∀ ch ∈ ([[[[1]]]] : Tensor4), ∀ m ∈ ch,
        m.length = (tensorShape [[[[1]]]]).1 ∧
          ∀ r ∈ m, r.length = (tensorShape [[[[1]]]]).2) ∧
      unpad (pad [[[[1]]]] 32) (tensorShape [[[[1]]]]) = [[[[1]]]] :=
  ⟨by decide, c9_unpad_pad_roundtrip [[[[1]]]] (by decide)⟩
